import Mathlib

/-!
# Stopwatch state machine

A shallow embedding of `src/stopwatch.cpp`, a Boost.Statechart machine with an
outer state `Active` (owning `elapsedTime_`) and two inner states `Stopped`
and `Running` (owning `startTime_`).

Modelling conventions:

* `std::time(0)` is an input: every operation that reads the clock takes the
  reading as the argument `now`.  Each `process_event` call and each
  `ElapsedTime` call reads the clock at most once, so one reading per call is
  exact.
* `std::time_t` values are whole seconds and are modelled by `Int`.
  `elapsedTime_` is a `double` that only ever holds `0.0` and sums of
  `std::difftime` results, which are whole numbers; it is modelled by `Int`
  (exact for magnitudes below `2^53`).
* Boost.Statechart dispatch is modelled explicitly: the reaction table of the
  innermost state is searched first, then the table of its context; a
  transition runs the exit actions (destructors) of the states that are left,
  innermost first, and then the entry actions (constructors) of the states
  that are entered, outermost first.
-/

namespace StopWatchFsm

/-! ## Events and reaction tables -/

/-- Events of the machine, the structs `EvStartStop` and `EvReset`. -/
inductive Event where
  | EvStartStop
  | EvReset
  deriving DecidableEq, Repr

/-- Names of the three state classes, used as transition destinations. -/
inductive StateId where
  | Active
  | Stopped
  | Running
  deriving DecidableEq, Repr

/-- The table `Active::reactions`, that is `sc::transition< EvReset, Active >`. -/
def Active.reactions : Event → Option StateId
  | Event.EvReset => some StateId.Active
  | Event.EvStartStop => none

/-- The table `Running::reactions`, that is `sc::transition< EvStartStop, Stopped >`. -/
def Running.reactions : Event → Option StateId
  | Event.EvStartStop => some StateId.Stopped
  | Event.EvReset => none

/-- The table `Stopped::reactions`, that is `sc::transition< EvStartStop, Running >`. -/
def Stopped.reactions : Event → Option StateId
  | Event.EvStartStop => some StateId.Running
  | Event.EvReset => none

/-! ## State objects -/

/-- The outer state `Active`; its only data member is `elapsedTime_`. -/
structure Active where
  elapsedTime_ : Int
  deriving DecidableEq, Repr

/-- The inner state `Running`; its only data member is `startTime_`. -/
structure Running where
  startTime_ : Int
  deriving DecidableEq, Repr

/-- The inner state object currently alive inside `Active`: a `Stopped`
object (no data members) or a `Running` object. -/
inductive Inner where
  | Stopped
  | Running (r : Running)
  deriving DecidableEq, Repr

/-- An initiated `StopWatch` machine: the live `Active` object together with
its live inner state object. -/
structure StopWatch where
  active : Active
  inner : Inner
  deriving DecidableEq, Repr

/-- The function `std::difftime(time1, time0)` on whole seconds. -/
def difftime (time1 time0 : Int) : Int := time1 - time0

/-- The constructor `Active() : elapsedTime_( 0.0 )`. -/
def Active.init : Active := { elapsedTime_ := 0 }

/-- The accessor `Active::ElapsedTime()`. -/
def Active.ElapsedTime (a : Active) : Int := a.elapsedTime_

/-- The constructor `Running() : startTime_( std::time( 0 ) )`. -/
def Running.init (now : Int) : Running := { startTime_ := now }

/-- The method `Running::ElapsedTime()`:
`context< Active >().ElapsedTime() + std::difftime( std::time( 0 ), startTime_ )`. -/
def Running.ElapsedTime (r : Running) (ctx : Active) (now : Int) : Int :=
  ctx.ElapsedTime + difftime now r.startTime_

/-- The destructor `~Running()`:
`context< Active >().ElapsedTime() = ElapsedTime();`. -/
def Running.exit (r : Running) (ctx : Active) (now : Int) : Active :=
  { ctx with elapsedTime_ := r.ElapsedTime ctx now }

/-- The method `Stopped::ElapsedTime()`: `context< Active >().ElapsedTime()`. -/
def Stopped.ElapsedTime (ctx : Active) : Int := ctx.ElapsedTime

/-- The call `state_cast< const IElapsedTime & >().ElapsedTime()`: virtual
dispatch to the `ElapsedTime` of the live inner state. -/
def IElapsedTime.ElapsedTime (sw : StopWatch) (now : Int) : Int :=
  match sw.inner with
  | Inner.Stopped => Stopped.ElapsedTime sw.active
  | Inner.Running r => r.ElapsedTime sw.active now

/-! ## The machine -/

/-- The call `stopWatch.initiate()`: construct `Active`, then its initial inner
state `Stopped` (third template argument of `Active`). -/
def initiate : StopWatch := { active := Active.init, inner := Inner.Stopped }

/-- Reaction table of the live inner state. -/
def Inner.reactions : Inner → Event → Option StateId
  | Inner.Stopped => Stopped.reactions
  | Inner.Running _ => Running.reactions

/-- Exit action of the live inner state: the destructor of `Running` writes to
its context, the (implicit) destructor of `Stopped` does nothing. -/
def exitInner (sw : StopWatch) (now : Int) : Active :=
  match sw.inner with
  | Inner.Stopped => sw.active
  | Inner.Running r => r.exit sw.active now

/-- Entry actions for a transition to `dest`, given the `Active` object as the
exit actions left it.  Entering `Stopped` or `Running` keeps the context and
constructs the inner state; entering `Active` discards the old `Active`
object, constructs a new one, and enters its initial inner state `Stopped`. -/
def enter (dest : StateId) (ctx : Active) (now : Int) : StopWatch :=
  match dest with
  | StateId.Stopped => { active := ctx, inner := Inner.Stopped }
  | StateId.Running => { active := ctx, inner := Inner.Running (Running.init now) }
  | StateId.Active => { active := Active.init, inner := Inner.Stopped }

/-- A transition to `dest`: exit the inner state (and `Active` too when the
destination is `Active`), then enter the destination. -/
def transit (sw : StopWatch) (dest : StateId) (now : Int) : StopWatch :=
  enter dest (exitInner sw now) now

/-- The call `stopWatch.process_event( ev )` with clock reading `now`: search
the inner state, then `Active`, for a reaction; an event with no reaction is
discarded. -/
def process_event (sw : StopWatch) (ev : Event) (now : Int) : StopWatch :=
  match sw.inner.reactions ev with
  | some dest => transit sw dest now
  | none =>
    match Active.reactions ev with
    | some dest => transit sw dest now
    | none => sw

/-- Process a finite sequence of events, each with the clock reading at the
moment it is processed. -/
def run (sw : StopWatch) (tr : List (Event × Int)) : StopWatch :=
  tr.foldl (fun s p => process_event s p.1 p.2) sw

/-! ## The console driver (`main`) -/

/-- What one iteration of the loop in `main` prints besides the
`Elapsed time:` banner. -/
inductive Output where
  | nothing
  | elapsed (seconds : Int)
  | invalidKey
  deriving DecidableEq, Repr

/-- The `switch( key )` of `main`, for a key other than the letter e. -/
def dispatch (sw : StopWatch) (key : Char) (now : Int) : StopWatch × Output :=
  if key = 'r' then (process_event sw Event.EvReset now, Output.nothing)
  else if key = 's' then (process_event sw Event.EvStartStop now, Output.nothing)
  else if key = 'd' then (sw, Output.elapsed (IElapsedTime.ElapsedTime sw now))
  else (sw, Output.invalidKey)

/-- The loop `while ( key != 'e' )` of `main` over the keys that `GetKey`
returns, each with the clock reading of its iteration; the loop ends at the
first letter e.  A list without that letter gives the machine and the output
after the iterations for the keys supplied; what `GetKey` does at the end of
the input is not modelled. -/
def mainLoop (sw : StopWatch) : List (Char × Int) → StopWatch × List Output
  | [] => (sw, [])
  | (key, now) :: rest =>
    if key = 'e' then (sw, [])
    else
      let step := dispatch sw key now
      let tail := mainLoop step.1 rest
      (tail.1, step.2 :: tail.2)

/-- The durations that a run of the driver loop displayed, in the order in
which they were printed. -/
def displayed : List Output → List Int
  | [] => []
  | Output.elapsed v :: rest => v :: displayed rest
  | _ :: rest => displayed rest

/-! ## Reference definitions for the accumulated time -/

/-- The events after the most recent `EvReset` (all of them when there is
none). -/
def afterLastReset (tr : List (Event × Int)) : List (Event × Int) :=
  (tr.reverse.takeWhile (fun p => decide (p.1 ≠ Event.EvReset))).reverse

/-- Pair successive toggle times into Running intervals `(start, stop)`; a
last unpaired start is an interval still in flight and is left out. -/
def completedIntervals : List Int → List (Int × Int)
  | start :: stop :: rest => (start, stop) :: completedIntervals rest
  | _ => []

/-- Sum of `stop - start` over the completed intervals of a list of toggle
times. -/
def intervalSum (ts : List Int) : Int :=
  ((completedIntervals ts).map (fun p => p.2 - p.1)).sum

/-- Reference value of the accumulated time after a trace: the sum of
`stop - start` over the Running intervals that were started and ended by a
toggle after the most recent reset. -/
def specAccumulatedTime (tr : List (Event × Int)) : Int :=
  ((completedIntervals ((afterLastReset tr).map Prod.snd)).map (fun p => p.2 - p.1)).sum

/-- Reference definition of the elapsed-time query: the accumulated time
when stopped, the accumulated time plus `now - start_time` when running. -/
def specElapsed (sw : StopWatch) (now : Int) : Int :=
  match sw.inner with
  | Inner.Stopped => sw.active.elapsedTime_
  | Inner.Running r => sw.active.elapsedTime_ + (now - r.startTime_)

/-! ## Sanity checks on concrete inputs -/

example : process_event ⟨⟨5⟩, Inner.Running ⟨10⟩⟩ Event.EvReset 13 = ⟨⟨0⟩, Inner.Stopped⟩ := by decide
example : process_event ⟨⟨5⟩, Inner.Running ⟨10⟩⟩ Event.EvStartStop 13 = ⟨⟨8⟩, Inner.Stopped⟩ := by
  decide
example : process_event ⟨⟨5⟩, Inner.Stopped⟩ Event.EvStartStop 13 = ⟨⟨5⟩, Inner.Running ⟨13⟩⟩ := by
  decide
example : (run initiate [(Event.EvStartStop, 1), (Event.EvStartStop, 4), (Event.EvStartStop, 6),
    (Event.EvReset, 9), (Event.EvStartStop, 10), (Event.EvStartStop, 12),
    (Event.EvStartStop, 20)]) = ⟨⟨2⟩, Inner.Running ⟨20⟩⟩ := by decide
example : specAccumulatedTime [(Event.EvStartStop, 1), (Event.EvStartStop, 4),
    (Event.EvStartStop, 6), (Event.EvReset, 9), (Event.EvStartStop, 10), (Event.EvStartStop, 12),
    (Event.EvStartStop, 20)] = 2 := by decide

/-! ## Single transitions -/

/-- C1: from every machine state and for every clock reading, `EvReset` leads
to inner state `Stopped` with `elapsedTime_ = 0`.  The transition is the one
declared on `Active`: the exit action of the inner state runs first (for
`Running` it folds the in-flight interval into the old `Active` object), and
that object is then replaced by a freshly constructed one, so the in-flight
interval is not part of the new accumulated time. -/
theorem reset_yields_stopped_zero (sw : StopWatch) (now : Int) :
    (process_event sw Event.EvReset now).inner = Inner.Stopped ∧
    (process_event sw Event.EvReset now).active.elapsedTime_ = 0 ∧
    process_event sw Event.EvReset now = enter StateId.Active (exitInner sw now) now ∧
    (∀ r, sw.inner = Inner.Running r →
      (exitInner sw now).elapsedTime_ = sw.active.elapsedTime_ + (now - r.startTime_)) := by
  obtain ⟨ctx, inner⟩ := sw
  cases inner with
  | Stopped =>
    refine ⟨rfl, rfl, rfl, ?_⟩
    intro r h
    cases h
  | Running r0 =>
    refine ⟨rfl, rfl, rfl, ?_⟩
    intro r h
    cases h
    rfl

/-- C2: in `Running` with accumulated time `a` and start time `t0`,
`EvStartStop` at clock reading `now` leads to `Stopped` with accumulated time
`a + (now - t0)`. -/
theorem toggle_running_folds (a t0 now : Int) :
    process_event { active := { elapsedTime_ := a }, inner := Inner.Running { startTime_ := t0 } }
        Event.EvStartStop now
      = { active := { elapsedTime_ := a + (now - t0) }, inner := Inner.Stopped } := by
  rfl

/-- C3: in `Stopped` with accumulated time `a`, `EvStartStop` at clock reading
`now` leads to `Running` with `startTime_ = now`, and the accumulated time is
still `a`. -/
theorem toggle_stopped_starts (a now : Int) :
    process_event { active := { elapsedTime_ := a }, inner := Inner.Stopped }
        Event.EvStartStop now
      = { active := { elapsedTime_ := a }, inner := Inner.Running { startTime_ := now } } := by
  rfl

/-- C4: the elapsed-time query agrees with its reference definition: in
`Stopped` it returns the accumulated time whatever the clock reads, in
`Running` it returns the accumulated time plus `now - startTime_`. -/
theorem elapsedTime_eq_spec :
    (∀ (sw : StopWatch) (now : Int), IElapsedTime.ElapsedTime sw now = specElapsed sw now) ∧
    (∀ a now : Int,
      IElapsedTime.ElapsedTime { active := { elapsedTime_ := a }, inner := Inner.Stopped } now
        = a) ∧
    (∀ a t0 now : Int,
      IElapsedTime.ElapsedTime
          { active := { elapsedTime_ := a }, inner := Inner.Running { startTime_ := t0 } } now
        = a + (now - t0)) := by
  refine ⟨?_, fun _ _ => rfl, fun _ _ _ => rfl⟩
  intro sw now
  obtain ⟨ctx, inner⟩ := sw
  cases inner <;> rfl

/-- C5: right after `initiate()` the machine is in `Stopped` with
`elapsedTime_ = 0`, and the elapsed-time query returns 0 for every clock
reading, also when issued through the driver's display command. -/
theorem initiate_stopped_zero :
    initiate.inner = Inner.Stopped ∧
    initiate.active.elapsedTime_ = 0 ∧
    (∀ now : Int, IElapsedTime.ElapsedTime initiate now = 0) ∧
    (∀ now : Int, dispatch initiate 'd' now = (initiate, Output.elapsed 0)) := by
  exact ⟨rfl, rfl, fun _ => rfl, fun _ => rfl⟩

/-- C6: from `Stopped` with accumulated time `a`, `EvStartStop` at `t1`
followed by `EvStartStop` at `t2` is back in `Stopped` with accumulated time
`a + (t2 - t1)`; with `a = 5` and `t2 - t1 = 3` that is 8. -/
theorem toggle_toggle_adds_interval (a t1 t2 : Int) :
    process_event
        (process_event { active := { elapsedTime_ := a }, inner := Inner.Stopped }
          Event.EvStartStop t1)
        Event.EvStartStop t2
      = { active := { elapsedTime_ := a + (t2 - t1) }, inner := Inner.Stopped } := by
  rfl

/-- C7: the display command of the driver is a pure read: it leaves the
machine (inner state, `elapsedTime_`, `startTime_`) as it was, so the rest of
the driver loop, any later event and any later query behave as if the query
had not happened. -/
theorem query_is_pure_read (sw : StopWatch) (now : Int) :
    (dispatch sw 'd' now).1 = sw ∧
    (dispatch sw 'd' now).2 = Output.elapsed (IElapsedTime.ElapsedTime sw now) ∧
    (∀ (ev : Event) (t : Int),
      process_event (dispatch sw 'd' now).1 ev t = process_event sw ev t) ∧
    (∀ t : Int,
      IElapsedTime.ElapsedTime (dispatch sw 'd' now).1 t = IElapsedTime.ElapsedTime sw t) ∧
    (∀ rest : List (Char × Int),
      (mainLoop sw (('d', now) :: rest)).1 = (mainLoop sw rest).1 ∧
      (mainLoop sw (('d', now) :: rest)).2
        = Output.elapsed (IElapsedTime.ElapsedTime sw now) :: (mainLoop sw rest).2) := by
  have h : dispatch sw 'd' now = (sw, Output.elapsed (IElapsedTime.ElapsedTime sw now)) := by
    simp [dispatch]
  refine ⟨by rw [h], by rw [h], fun _ _ => by rw [h], fun _ => by rw [h], fun rest => ?_⟩
  simp [mainLoop, h]

/-- C8: within one Running interval, for clock readings `t1 ≤ t2` (both at or
after the start time `t0`), the query at `t2` returns at least what the query
at `t1` returns, which in turn is at least the accumulated time. -/
theorem running_query_monotone (a t0 t1 t2 : Int) (h0 : t0 ≤ t1) (h12 : t1 ≤ t2) :
    a ≤ IElapsedTime.ElapsedTime
        { active := { elapsedTime_ := a }, inner := Inner.Running { startTime_ := t0 } } t1 ∧
    IElapsedTime.ElapsedTime
        { active := { elapsedTime_ := a }, inner := Inner.Running { startTime_ := t0 } } t1
      ≤ IElapsedTime.ElapsedTime
        { active := { elapsedTime_ := a }, inner := Inner.Running { startTime_ := t0 } } t2 := by
  refine ⟨?_, ?_⟩
  · show a ≤ a + (t1 - t0)
    omega
  · show a + (t1 - t0) ≤ a + (t2 - t0)
    omega

/-- Witness for C8: start time 10, queries at 12 and 15 with accumulated time 5. -/
theorem running_query_monotone_witness :
    (10 : Int) ≤ 12 ∧ (12 : Int) ≤ 15 ∧
    IElapsedTime.ElapsedTime
        { active := { elapsedTime_ := 5 }, inner := Inner.Running { startTime_ := 10 } } 12
      ≤ IElapsedTime.ElapsedTime
        { active := { elapsedTime_ := 5 }, inner := Inner.Running { startTime_ := 10 } } 15 :=
  ⟨by decide, by decide, (running_query_monotone 5 10 12 15 (by decide) (by decide)).2⟩

/-! ## Traces of events -/

theorem run_nil (sw : StopWatch) : run sw [] = sw := rfl

theorem run_cons (sw : StopWatch) (ev : Event) (t : Int) (tr : List (Event × Int)) :
    run sw ((ev, t) :: tr) = run (process_event sw ev t) tr := rfl

theorem run_append (sw : StopWatch) (tr1 tr2 : List (Event × Int)) :
    run sw (tr1 ++ tr2) = run (run sw tr1) tr2 := by
  simp [run, List.foldl_append]

theorem run_snoc (sw : StopWatch) (tr : List (Event × Int)) (ev : Event) (t : Int) :
    run sw (tr ++ [(ev, t)]) = process_event (run sw tr) ev t := by
  rw [run_append]
  rfl

theorem process_event_reset (sw : StopWatch) (t : Int) :
    process_event sw Event.EvReset t = initiate := by
  obtain ⟨ctx, inner⟩ := sw
  cases inner <;> rfl

/-- Reachable-state invariant under a non-decreasing clock: the accumulated
time is non-negative, and the start time of a live `Running` state is one of
the clock readings of the trace. -/
theorem run_initiate_invariant (tr : List (Event × Int))
    (hclock : List.Pairwise (fun t1 t2 : Int => t1 ≤ t2) (tr.map Prod.snd)) :
    0 ≤ (run initiate tr).active.elapsedTime_ ∧
    ∀ r, (run initiate tr).inner = Inner.Running r → r.startTime_ ∈ tr.map Prod.snd := by
  induction tr using List.reverseRecOn with
  | nil =>
    refine ⟨le_refl _, ?_⟩
    intro r h
    cases h
  | append_singleton tr x ih =>
    obtain ⟨ev, t⟩ := x
    rw [List.map_append, List.pairwise_append] at hclock
    obtain ⟨hpre, -, hle⟩ := hclock
    obtain ⟨hacc, hstart⟩ := ih hpre
    rw [run_snoc]
    cases ev with
    | EvReset =>
      rw [process_event_reset]
      refine ⟨le_refl _, ?_⟩
      intro r h
      cases h
    | EvStartStop =>
      generalize hsw : run initiate tr = sw at hacc hstart
      obtain ⟨⟨a⟩, inner⟩ := sw
      cases inner with
      | Stopped =>
        refine ⟨hacc, ?_⟩
        intro r h
        have hr : r.startTime_ = t := by
          cases h
          rfl
        simp [hr]
      | Running r0 =>
        have h0 : r0.startTime_ ≤ t := hle _ (hstart r0 rfl) t (by simp)
        refine ⟨?_, ?_⟩
        · show 0 ≤ a + (t - r0.startTime_)
          have ha : 0 ≤ a := hacc
          omega
        · intro r h
          cases h

/-- C9: for every finite sequence of `EvStartStop` and `EvReset` events applied
to the initiated machine with non-decreasing clock readings, the accumulated
time is non-negative in every state reached: after each number `n` of events
processed, and also in the transient `Active` object that the exit action of
the inner state leaves behind while the next event is being processed. -/
theorem elapsedTime_nonneg (tr : List (Event × Int))
    (hclock : List.Pairwise (fun t1 t2 : Int => t1 ≤ t2) (tr.map Prod.snd)) (n : Nat) :
    0 ≤ (run initiate (tr.take n)).active.elapsedTime_ ∧
    ∀ ev t, tr.get? n = some (ev, t) →
      0 ≤ (exitInner (run initiate (tr.take n)) t).elapsedTime_ := by
  have htake : List.Pairwise (fun t1 t2 : Int => t1 ≤ t2) ((tr.take n).map Prod.snd) := by
    rw [List.map_take]
    exact hclock.sublist (List.take_sublist _ _)
  obtain ⟨hacc, hstart⟩ := run_initiate_invariant (tr.take n) htake
  refine ⟨hacc, ?_⟩
  intro ev t hget
  generalize hsw : run initiate (tr.take n) = sw at hacc hstart
  obtain ⟨⟨a⟩, inner⟩ := sw
  cases inner with
  | Stopped => exact hacc
  | Running r0 =>
    have hmem : r0.startTime_ ∈ (tr.take n).map Prod.snd := hstart r0 rfl
    have hsplit : tr = tr.take n ++ (ev, t) :: tr.drop (n + 1) := by
      have h1 : tr.drop n = (ev, t) :: tr.drop (n + 1) := by
        rw [List.get?_eq_getElem?] at hget
        obtain ⟨hn, hx⟩ := List.getElem?_eq_some.mp hget
        rw [← hx]
        exact List.drop_eq_getElem_cons hn
      calc tr = tr.take n ++ tr.drop n := (List.take_append_drop n tr).symm
        _ = tr.take n ++ (ev, t) :: tr.drop (n + 1) := by rw [h1]
    have hclock2 := hclock
    rw [hsplit, List.map_append, List.pairwise_append] at hclock2
    have h0 : r0.startTime_ ≤ t := hclock2.2.2 _ hmem t (by simp)
    show 0 ≤ a + (t - r0.startTime_)
    have ha : 0 ≤ a := hacc
    omega

/-- Witness for C9: start at 1, stop at 4, start at 6, reset at 9; the state
after three events and the transient of the reset. -/
theorem elapsedTime_nonneg_witness :
    List.Pairwise (fun t1 t2 : Int => t1 ≤ t2)
      ([(Event.EvStartStop, 1), (Event.EvStartStop, 4), (Event.EvStartStop, 6),
        (Event.EvReset, 9)].map Prod.snd) ∧
    0 ≤ (run initiate ([(Event.EvStartStop, 1), (Event.EvStartStop, 4), (Event.EvStartStop, 6),
        (Event.EvReset, 9)].take 3)).active.elapsedTime_ ∧
    0 ≤ (exitInner (run initiate ([(Event.EvStartStop, 1), (Event.EvStartStop, 4),
        (Event.EvStartStop, 6), (Event.EvReset, 9)].take 3)) 9).elapsedTime_ :=
  ⟨by decide,
   (elapsedTime_nonneg [(Event.EvStartStop, 1), (Event.EvStartStop, 4), (Event.EvStartStop, 6),
      (Event.EvReset, 9)] (by decide) 3).1,
   (elapsedTime_nonneg [(Event.EvStartStop, 1), (Event.EvStartStop, 4), (Event.EvStartStop, 6),
      (Event.EvReset, 9)] (by decide) 3).2 Event.EvReset 9 rfl⟩

/-! ## The accumulated time as a sum over completed intervals -/

theorem intervalSum_nil : intervalSum [] = 0 := rfl

theorem intervalSum_single (t : Int) : intervalSum [t] = 0 := rfl

theorem intervalSum_pair (t1 t2 : Int) (ts : List Int) :
    intervalSum (t1 :: t2 :: ts) = (t2 - t1) + intervalSum ts := by
  simp [intervalSum, completedIntervals]

/-- On a trace of toggles only, the accumulated time grows by the completed
intervals: counted from the first toggle when the machine starts in `Stopped`,
and from the pending start time when it starts in `Running`. -/
theorem run_toggles (tr : List (Event × Int))
    (htog : ∀ p ∈ tr, p.1 = Event.EvStartStop) (a : Int) :
    (run { active := { elapsedTime_ := a }, inner := Inner.Stopped } tr).active.elapsedTime_
      = a + intervalSum (tr.map Prod.snd) ∧
    ∀ t0 : Int,
      (run { active := { elapsedTime_ := a }, inner := Inner.Running { startTime_ := t0 } }
          tr).active.elapsedTime_
        = a + intervalSum (t0 :: tr.map Prod.snd) := by
  induction tr generalizing a with
  | nil =>
    refine ⟨?_, fun t0 => ?_⟩
    · simp [run_nil, intervalSum_nil]
    · simp [run_nil, intervalSum_single]
  | cons x tr ih =>
    obtain ⟨ev, t⟩ := x
    have hev : ev = Event.EvStartStop := htog (ev, t) (by simp)
    subst hev
    have htog2 : ∀ p ∈ tr, p.1 = Event.EvStartStop := fun p hp =>
      htog p (List.mem_cons_of_mem _ hp)
    refine ⟨?_, fun t0 => ?_⟩
    · rw [run_cons]
      exact (ih htog2 a).2 t
    · rw [run_cons, List.map_cons, intervalSum_pair]
      have h := (ih htog2 (a + (t - t0))).1
      have hstep : process_event
          { active := { elapsedTime_ := a }, inner := Inner.Running { startTime_ := t0 } }
          Event.EvStartStop t
          = { active := { elapsedTime_ := a + (t - t0) }, inner := Inner.Stopped } := rfl
      rw [hstep, h]
      ring

/-- A list with its leading run of elements satisfying `p` dropped is empty
or begins with an element that fails `p`. -/
theorem dropWhile_nil_or_head {α : Type} (p : α → Bool) (l : List α) :
    l.dropWhile p = [] ∨ ∃ x rest, l.dropWhile p = x :: rest ∧ p x = false := by
  induction l with
  | nil => exact Or.inl rfl
  | cons y l ih =>
    by_cases hy : p y = true
    · simpa [List.dropWhile_cons, hy] using ih
    · right
      refine ⟨y, l, ?_, by simpa using hy⟩
      simp [List.dropWhile_cons, hy]

theorem afterLastReset_toggles (tr : List (Event × Int)) :
    ∀ p ∈ afterLastReset tr, p.1 = Event.EvStartStop := by
  intro p hp
  rw [afterLastReset, List.mem_reverse] at hp
  have h := List.mem_takeWhile_imp hp
  have hne : p.1 ≠ Event.EvReset := by simpa using h
  cases hp1 : p.1 with
  | EvStartStop => rfl
  | EvReset => exact absurd hp1 hne

/-- Running a trace from the initiated machine is the same as running only
the part after the most recent reset. -/
theorem run_initiate_afterLastReset (tr : List (Event × Int)) :
    run initiate tr = run initiate (afterLastReset tr) := by
  have hsplit : tr = (tr.reverse.dropWhile (fun p => decide (p.1 ≠ Event.EvReset))).reverse
      ++ afterLastReset tr := by
    rw [afterLastReset, ← List.reverse_append, List.takeWhile_append_dropWhile,
      List.reverse_reverse]
  rcases dropWhile_nil_or_head (fun p : Event × Int => decide (p.1 ≠ Event.EvReset)) tr.reverse
    with hnil | ⟨x, rest, hcons, hx⟩
  · rw [hnil] at hsplit
    simpa using congrArg (run initiate) hsplit
  · obtain ⟨ev, t⟩ := x
    have hev : ev = Event.EvReset := by simpa using hx
    subst hev
    rw [hcons, List.reverse_cons] at hsplit
    calc run initiate tr
        = run (run initiate (rest.reverse ++ [(Event.EvReset, t)])) (afterLastReset tr) := by
          rw [← run_append, ← hsplit]
      _ = run initiate (afterLastReset tr) := by
          rw [run_snoc, process_event_reset]

/-- C10: for every finite sequence of `EvStartStop` and `EvReset` events
applied to the initiated machine, with arbitrary clock readings, the resulting
accumulated time is the sum of `stop - start` over the Running intervals that
were started and then ended by a toggle after the most recent reset (or since
initiation when there is none); an interval ended by a reset or still in
flight contributes nothing. -/
theorem elapsedTime_eq_completed_intervals (tr : List (Event × Int)) :
    (run initiate tr).active.elapsedTime_ = specAccumulatedTime tr := by
  rw [run_initiate_afterLastReset]
  have h := (run_toggles (afterLastReset tr) (afterLastReset_toggles tr) 0).1
  have hinit : initiate = { active := { elapsedTime_ := 0 }, inner := Inner.Stopped } := rfl
  rw [hinit, h, intervalSum]
  simp [specAccumulatedTime]

/-! ## The driver and the clock -/

theorem process_event_toggle_stopped (a t : Int) :
    process_event { active := { elapsedTime_ := a }, inner := Inner.Stopped } Event.EvStartStop t
      = { active := { elapsedTime_ := a }, inner := Inner.Running { startTime_ := t } } := rfl

theorem process_event_toggle_running (a t0 t : Int) :
    process_event { active := { elapsedTime_ := a }, inner := Inner.Running { startTime_ := t0 } }
        Event.EvStartStop t
      = { active := { elapsedTime_ := a + (t - t0) }, inner := Inner.Stopped } := rfl

theorem elapsedTime_stopped (a t : Int) :
    IElapsedTime.ElapsedTime { active := { elapsedTime_ := a }, inner := Inner.Stopped } t = a :=
  rfl

theorem elapsedTime_running (a t0 t : Int) :
    IElapsedTime.ElapsedTime
        { active := { elapsedTime_ := a }, inner := Inner.Running { startTime_ := t0 } } t
      = a + (t - t0) := rfl

theorem dispatch_r (sw : StopWatch) (t : Int) :
    dispatch sw 'r' t = (process_event sw Event.EvReset t, Output.nothing) := by
  simp [dispatch]

theorem dispatch_s (sw : StopWatch) (t : Int) :
    dispatch sw 's' t = (process_event sw Event.EvStartStop t, Output.nothing) := by
  simp [dispatch]

theorem dispatch_d (sw : StopWatch) (t : Int) :
    dispatch sw 'd' t = (sw, Output.elapsed (IElapsedTime.ElapsedTime sw t)) := by
  simp [dispatch]

theorem mainLoop_cons (sw : StopWatch) (key : Char) (t : Int) (rest : List (Char × Int))
    (hkey : key ≠ 'e') :
    mainLoop sw ((key, t) :: rest)
      = ((mainLoop (dispatch sw key t).1 rest).1,
         (dispatch sw key t).2 :: (mainLoop (dispatch sw key t).1 rest).2) := by
  simp [mainLoop, hkey]

/-- C11, as the code has it: the claim that a clock reading before the start
time is detected fails.  In `Running` with accumulated time 0 and start time
10, the query at clock reading 7 returns `0 + (7 - 10) = -3`, and the driver
prints it like any other elapsed time. -/
theorem clock_fault_not_detected :
    (7 : Int) < 10 ∧
    IElapsedTime.ElapsedTime
        { active := { elapsedTime_ := 0 }, inner := Inner.Running { startTime_ := 10 } } 7
      = 0 + (7 - 10) ∧
    dispatch { active := { elapsedTime_ := 0 }, inner := Inner.Running { startTime_ := 10 } } 'd' 7
      = ({ active := { elapsedTime_ := 0 }, inner := Inner.Running { startTime_ := 10 } },
         Output.elapsed (-3)) := by
  refine ⟨by decide, rfl, ?_⟩
  rw [dispatch_d]
  rfl

/-- C11, amended: for every `Running` state and every clock reading `now`
before the start time, the query returns `elapsedTime_ + (now - startTime_)`
unguarded, a value strictly below the accumulated time, and the driver prints
it as an ordinary elapsed time, leaving the machine as it was. -/
theorem clock_fault_returned_unguarded (a t0 now : Int) (hfault : now < t0) :
    IElapsedTime.ElapsedTime
        { active := { elapsedTime_ := a }, inner := Inner.Running { startTime_ := t0 } } now
      = a + (now - t0) ∧
    IElapsedTime.ElapsedTime
        { active := { elapsedTime_ := a }, inner := Inner.Running { startTime_ := t0 } } now
      < a ∧
    dispatch { active := { elapsedTime_ := a }, inner := Inner.Running { startTime_ := t0 } } 'd' now
      = ({ active := { elapsedTime_ := a }, inner := Inner.Running { startTime_ := t0 } },
         Output.elapsed (a + (now - t0))) := by
  refine ⟨rfl, ?_, ?_⟩
  · rw [elapsedTime_running]
    omega
  · rw [dispatch_d, elapsedTime_running]

/-- Witness for the amended C11: accumulated time 5, start time 10, clock
reading 7. -/
theorem clock_fault_returned_unguarded_witness :
    (7 : Int) < 10 ∧
    IElapsedTime.ElapsedTime
        { active := { elapsedTime_ := 5 }, inner := Inner.Running { startTime_ := 10 } } 7
      = 5 + (7 - 10) :=
  ⟨by decide, (clock_fault_returned_unguarded 5 10 7 (by decide)).1⟩

/-! ## Driver scenarios -/

/-- C12: the command sequence s, d, r, d on a freshly initiated machine with
clock readings `ts ≤ td1 ≤ tr ≤ td2`: after s the machine is `Running` (started
at `ts`); the first d prints `td1 - ts`, which is non-negative and does not
decrease when `td1` is replaced by a later reading; after r the machine is
`Stopped` with accumulated time 0; the last d prints 0. -/
theorem scenario_s_d_r_d (ts td1 tr td2 : Int) (h1 : ts ≤ td1) (h2 : td1 ≤ tr) (h3 : tr ≤ td2) :
    (mainLoop initiate [('s', ts)]).1
      = { active := { elapsedTime_ := 0 }, inner := Inner.Running { startTime_ := ts } } ∧
    (mainLoop initiate [('s', ts), ('d', td1)]).2 = [Output.nothing, Output.elapsed (td1 - ts)] ∧
    0 ≤ td1 - ts ∧
    (∀ td1' : Int, td1 ≤ td1' →
      displayed (mainLoop initiate [('s', ts), ('d', td1)]).2
        = [td1 - ts] ∧
      displayed (mainLoop initiate [('s', ts), ('d', td1')]).2
        = [td1' - ts] ∧
      td1 - ts ≤ td1' - ts) ∧
    (mainLoop initiate [('s', ts), ('d', td1), ('r', tr)]).1
      = { active := { elapsedTime_ := 0 }, inner := Inner.Stopped } ∧
    mainLoop initiate [('s', ts), ('d', td1), ('r', tr), ('d', td2)]
      = ({ active := { elapsedTime_ := 0 }, inner := Inner.Stopped },
         [Output.nothing, Output.elapsed (td1 - ts), Output.nothing, Output.elapsed 0]) ∧
    ts ≤ td2 := by
  have hstart : process_event initiate Event.EvStartStop ts
      = { active := { elapsedTime_ := 0 }, inner := Inner.Running { startTime_ := ts } } := rfl
  have hquery : ∀ t : Int, IElapsedTime.ElapsedTime
      { active := { elapsedTime_ := 0 }, inner := Inner.Running { startTime_ := ts } } t
      = t - ts := by
    intro t
    rw [elapsedTime_running, zero_add]
  have hzero : IElapsedTime.ElapsedTime initiate td2 = 0 := rfl
  have hloop : ∀ t : Int, mainLoop initiate [('s', ts), ('d', t)]
      = ({ active := { elapsedTime_ := 0 }, inner := Inner.Running { startTime_ := ts } },
         [Output.nothing, Output.elapsed (t - ts)]) := by
    intro t
    simp [mainLoop, dispatch_s, dispatch_d, hstart, hquery]
  refine ⟨?_, ?_, by omega, ?_, ?_, ?_, by omega⟩
  · simp [mainLoop, dispatch_s, hstart]
  · rw [hloop]
  · intro td1' hle
    rw [hloop, hloop]
    exact ⟨rfl, rfl, by omega⟩
  · simp [mainLoop, dispatch_s, dispatch_d, dispatch_r, hstart, process_event_reset]
    rfl
  · simp [mainLoop, dispatch_s, dispatch_d, dispatch_r, hstart, hquery, process_event_reset,
      hzero]
    rfl

/-- Witness for C12: s at 100, d at 103, r at 104, d at 110. -/
theorem scenario_s_d_r_d_witness :
    (100 : Int) ≤ 103 ∧ (103 : Int) ≤ 104 ∧ (104 : Int) ≤ 110 ∧
    mainLoop initiate [('s', 100), ('d', 103), ('r', 104), ('d', 110)]
      = ({ active := { elapsedTime_ := 0 }, inner := Inner.Stopped },
         [Output.nothing, Output.elapsed (103 - 100), Output.nothing, Output.elapsed 0]) :=
  ⟨by decide, by decide, by decide,
   (scenario_s_d_r_d 100 103 104 110 (by decide) (by decide) (by decide)).2.2.2.2.2.1⟩

/-- C13: chained commands are dispatched one after the other: from every
machine state, r at `tr` followed by s at `ts` leaves the machine in `Running`
with accumulated time 0 and start time `ts`, so a later query at `t` returns
`t - ts` whatever the state before the chain was. -/
theorem chain_r_s (sw : StopWatch) (tr ts : Int) :
    (mainLoop sw [('r', tr), ('s', ts)]).1
      = (dispatch (dispatch sw 'r' tr).1 's' ts).1 ∧
    (mainLoop sw [('r', tr), ('s', ts)]).1
      = { active := { elapsedTime_ := 0 }, inner := Inner.Running { startTime_ := ts } } ∧
    (∀ t : Int, IElapsedTime.ElapsedTime (mainLoop sw [('r', tr), ('s', ts)]).1 t = t - ts) ∧
    (∀ t : Int, (mainLoop sw [('r', tr), ('s', ts), ('d', t)]).2
      = [Output.nothing, Output.nothing, Output.elapsed (t - ts)]) := by
  have hstart : process_event initiate Event.EvStartStop ts
      = { active := { elapsedTime_ := 0 }, inner := Inner.Running { startTime_ := ts } } := rfl
  have hstate : (mainLoop sw [('r', tr), ('s', ts)]).1
      = { active := { elapsedTime_ := 0 }, inner := Inner.Running { startTime_ := ts } } := by
    simp [mainLoop, dispatch_r, dispatch_s, process_event_reset, hstart]
  refine ⟨?_, hstate, ?_, ?_⟩
  · simp [mainLoop]
  · intro t
    rw [hstate, elapsedTime_running, zero_add]
  · intro t
    simp [mainLoop, dispatch_r, dispatch_s, dispatch_d, process_event_reset, hstart,
      elapsedTime_running]

/-- C14: for every machine state and every key other than s, r, d and e, one
iteration of the driver loop sends no event to the machine: inner state,
`elapsedTime_` and `startTime_` are as before, and only the invalid-key
message is produced. -/
theorem invalid_key_ignored (sw : StopWatch) (key : Char) (now : Int)
    (hs : key ≠ 's') (hr : key ≠ 'r') (hd : key ≠ 'd') (he : key ≠ 'e') :
    dispatch sw key now = (sw, Output.invalidKey) ∧
    (∀ rest : List (Char × Int),
      mainLoop sw ((key, now) :: rest)
        = ((mainLoop sw rest).1, Output.invalidKey :: (mainLoop sw rest).2)) := by
  have h : dispatch sw key now = (sw, Output.invalidKey) := by
    simp [dispatch, hs, hr, hd]
  refine ⟨h, fun rest => ?_⟩
  rw [mainLoop_cons _ _ _ _ he, h]

/-- Witness for C14: the key x while running. -/
theorem invalid_key_ignored_witness :
    dispatch { active := { elapsedTime_ := 5 }, inner := Inner.Running { startTime_ := 10 } } 'x' 12
      = ({ active := { elapsedTime_ := 5 }, inner := Inner.Running { startTime_ := 10 } },
         Output.invalidKey) :=
  (invalid_key_ignored _ 'x' 12 (by decide) (by decide) (by decide) (by decide)).1

/-- C15: the transition function is total over the declared reaction tables.
`EvStartStop` has a reaction in the table of each inner state, `EvReset` has
none there and one in the table of `Active`; so for every machine state and
event `process_event` performs a transition (the discard branch is never
taken), and the inner state afterwards is `Stopped` or `Running`. -/
theorem reactions_total :
    Stopped.reactions Event.EvStartStop = some StateId.Running ∧
    Running.reactions Event.EvStartStop = some StateId.Stopped ∧
    Stopped.reactions Event.EvReset = none ∧
    Running.reactions Event.EvReset = none ∧
    Active.reactions Event.EvReset = some StateId.Active ∧
    (∀ (sw : StopWatch) (now : Int), ∃ dest,
      sw.inner.reactions Event.EvStartStop = some dest ∧
      process_event sw Event.EvStartStop now = transit sw dest now) ∧
    (∀ (sw : StopWatch) (now : Int),
      sw.inner.reactions Event.EvReset = none ∧
      process_event sw Event.EvReset now = transit sw StateId.Active now) ∧
    (∀ (sw : StopWatch) (ev : Event) (now : Int),
      (process_event sw ev now).inner = Inner.Stopped ∨
      ∃ r, (process_event sw ev now).inner = Inner.Running r) := by
  refine ⟨rfl, rfl, rfl, rfl, rfl, ?_, ?_, ?_⟩
  · intro sw now
    obtain ⟨ctx, inner⟩ := sw
    cases inner with
    | Stopped => exact ⟨StateId.Running, rfl, rfl⟩
    | Running r => exact ⟨StateId.Stopped, rfl, rfl⟩
  · intro sw now
    obtain ⟨ctx, inner⟩ := sw
    cases inner <;> exact ⟨rfl, rfl⟩
  · intro sw ev now
    obtain ⟨ctx, inner⟩ := sw
    cases inner <;> cases ev
    · exact Or.inr ⟨_, rfl⟩
    · exact Or.inl rfl
    · exact Or.inl rfl
    · exact Or.inl rfl

/-- C16: `EvStartStop` does not change the displayed time at the instant it
is handled: for every machine state and clock reading `t`, the query at `t`
after the event at `t` returns what the query at `t` returned before it. -/
theorem toggle_keeps_display (sw : StopWatch) (t : Int) :
    IElapsedTime.ElapsedTime (process_event sw Event.EvStartStop t) t
      = IElapsedTime.ElapsedTime sw t := by
  obtain ⟨⟨a⟩, inner⟩ := sw
  cases inner with
  | Stopped =>
    rw [process_event_toggle_stopped, elapsedTime_running, elapsedTime_stopped]
    omega
  | Running r =>
    obtain ⟨t0⟩ := r
    rw [process_event_toggle_running, elapsedTime_running, elapsedTime_stopped]

/-! ## The displayed time between resets -/

theorem elapsedTime_mono (sw : StopWatch) (t1 t2 : Int) (h : t1 ≤ t2) :
    IElapsedTime.ElapsedTime sw t1 ≤ IElapsedTime.ElapsedTime sw t2 := by
  obtain ⟨⟨a⟩, inner⟩ := sw
  cases inner with
  | Stopped => exact le_refl _
  | Running r =>
    obtain ⟨t0⟩ := r
    rw [elapsedTime_running, elapsedTime_running]
    omega

theorem elapsedTime_process_toggle (sw : StopWatch) (t : Int) :
    IElapsedTime.ElapsedTime (process_event sw Event.EvStartStop t) t
      = IElapsedTime.ElapsedTime sw t := by
  obtain ⟨⟨a⟩, inner⟩ := sw
  cases inner with
  | Stopped =>
    rw [process_event_toggle_stopped, elapsedTime_running, elapsedTime_stopped]
    omega
  | Running r =>
    obtain ⟨t0⟩ := r
    rw [process_event_toggle_running, elapsedTime_running, elapsedTime_stopped]

theorem displayed_nothing (outs : List Output) :
    displayed (Output.nothing :: outs) = displayed outs := rfl

theorem displayed_elapsed (v : Int) (outs : List Output) :
    displayed (Output.elapsed v :: outs) = v :: displayed outs := rfl

/-- Start/stop and display commands with non-decreasing clock readings, none
before `lo`: every displayed value is at least what a query at `lo` would have
shown, and the displayed values never decrease. -/
theorem displayed_sorted_from (cmds : List (Char × Int)) :
    ∀ (sw : StopWatch) (lo : Int),
      (∀ p ∈ cmds, lo ≤ p.2) →
      (∀ p ∈ cmds, p.1 = 's' ∨ p.1 = 'd') →
      List.Pairwise (fun t1 t2 : Int => t1 ≤ t2) (cmds.map Prod.snd) →
      (∀ v ∈ displayed (mainLoop sw cmds).2, IElapsedTime.ElapsedTime sw lo ≤ v) ∧
      List.Pairwise (fun v1 v2 : Int => v1 ≤ v2) (displayed (mainLoop sw cmds).2) := by
  induction cmds with
  | nil =>
    intro sw lo _ _ _
    exact ⟨fun v hv => (by cases hv), List.Pairwise.nil⟩
  | cons x rest ih =>
    intro sw lo hlo hkeys hclock
    obtain ⟨key, t⟩ := x
    have hlot : lo ≤ t := hlo (key, t) (by simp)
    rw [List.map_cons, List.pairwise_cons] at hclock
    obtain ⟨hhead, htail⟩ := hclock
    have hrest : ∀ p ∈ rest, t ≤ p.2 := fun p hp =>
      hhead p.2 (List.mem_map_of_mem Prod.snd hp)
    have hkeys2 : ∀ p ∈ rest, p.1 = 's' ∨ p.1 = 'd' := fun p hp =>
      hkeys p (List.mem_cons_of_mem _ hp)
    have hcur : IElapsedTime.ElapsedTime sw lo ≤ IElapsedTime.ElapsedTime sw t :=
      elapsedTime_mono sw lo t hlot
    rcases hkeys (key, t) (by simp) with hk | hk
    · have hk2 : key = 's' := hk
      subst hk2
      obtain ⟨hge, hsorted⟩ := ih (process_event sw Event.EvStartStop t) t hrest hkeys2 htail
      rw [mainLoop_cons _ _ _ _ (by decide), dispatch_s]
      refine ⟨?_, hsorted⟩
      intro v hv
      have h1 := hge v hv
      rw [elapsedTime_process_toggle] at h1
      exact le_trans hcur h1
    · have hk2 : key = 'd' := hk
      subst hk2
      obtain ⟨hge, hsorted⟩ := ih sw t hrest hkeys2 htail
      rw [mainLoop_cons _ _ _ _ (by decide), dispatch_d]
      refine ⟨?_, ?_⟩
      · intro v hv
        rw [displayed_elapsed, List.mem_cons] at hv
        rcases hv with hv | hv
        · rw [hv]
          exact hcur
        · exact le_trans hcur (hge v hv)
      · rw [displayed_elapsed, List.pairwise_cons]
        exact ⟨hge, hsorted⟩

/-- C17: between resets the displayed time never goes backwards: for every
sequence of start/stop and display commands (no reset) with non-decreasing
clock readings, applied from any machine state (reachable or not), each
displayed value is at least every value displayed earlier in the sequence,
across any number of stop/start cycles. -/
theorem display_never_decreases (sw : StopWatch) (cmds : List (Char × Int))
    (hkeys : ∀ p ∈ cmds, p.1 = 's' ∨ p.1 = 'd')
    (hclock : List.Pairwise (fun t1 t2 : Int => t1 ≤ t2) (cmds.map Prod.snd)) :
    List.Pairwise (fun v1 v2 : Int => v1 ≤ v2) (displayed (mainLoop sw cmds).2) := by
  cases cmds with
  | nil => exact List.Pairwise.nil
  | cons x rest =>
    have hclock2 := hclock
    rw [List.map_cons, List.pairwise_cons] at hclock2
    have hlo : ∀ p ∈ x :: rest, x.2 ≤ p.2 := by
      intro p hp
      rcases List.mem_cons.mp hp with hp | hp
      · rw [hp]
      · exact hclock2.1 p.2 (List.mem_map_of_mem Prod.snd hp)
    exact (displayed_sorted_from (x :: rest) sw x.2 hlo hkeys hclock).2

/-- Witness for C17: a machine that was started at 1 and reset at 2, then
three start/stop commands with a display after each. -/
theorem display_never_decreases_witness :
    (∀ p ∈ [('s', (3 : Int)), ('d', 5), ('s', 6), ('d', 8), ('s', 9), ('d', 10)],
      p.1 = 's' ∨ p.1 = 'd') ∧
    List.Pairwise (fun t1 t2 : Int => t1 ≤ t2)
      ([('s', (3 : Int)), ('d', 5), ('s', 6), ('d', 8), ('s', 9), ('d', 10)].map Prod.snd) ∧
    List.Pairwise (fun v1 v2 : Int => v1 ≤ v2)
      (displayed (mainLoop (run initiate [(Event.EvStartStop, 1), (Event.EvReset, 2)])
        [('s', 3), ('d', 5), ('s', 6), ('d', 8), ('s', 9), ('d', 10)]).2) :=
  ⟨by decide, by decide,
   display_never_decreases (run initiate [(Event.EvStartStop, 1), (Event.EvReset, 2)])
     [('s', 3), ('d', 5), ('s', 6), ('d', 8), ('s', 9), ('d', 10)] (by decide) (by decide)⟩

end StopWatchFsm
